import Mathlib

/-!
Shallow embedding of the `envflag` Go package (src/envflag.go) and proofs of
the specification claims about it.

The embedding models:
* `Prefix` / `NewPrefix` / `Strict` / `NoPrefix` — the prefix configuration,
* `envName` — the flag-name → environment-variable-name mapping,
* `Flag` / `FlagSet` — the state read and written through the external `flag`
  package (a flag's `Value` is modelled by its string representation together
  with an acceptance predicate and an error-message function for its setter),
* `bind` — the core binding algorithm (the environment, read by `os.LookupEnv`
  and `os.Environ` in Go, is passed explicitly as an association list),
* `BindFlagSet` / `Bind` — the error-handling adapter and the convenience
  entry point, whose observable behaviour (returned error, panic, or printed
  output followed by the default exit hook with status 2) is reified in the
  `Outcome` type.
-/

set_option maxHeartbeats 1000000

namespace Envflag

/-- The process environment, as name/value pairs (Go reads it via
`os.LookupEnv` and `os.Environ`). -/
abbrev Env := List (String × String)

/-- Embeds `strings.ReplaceAll(s, "-", "_")`: the pattern is the single
character `-`, so the replacement is a character map. -/
def replaceDashes (s : String) : String :=
  ⟨s.data.map fun c => if c = '-' then '_' else c⟩

/-- Embeds `strings.ToUpper(flagName)`, mapping each character to upper case. -/
def goToUpper (s : String) : String :=
  ⟨s.data.map Char.toUpper⟩

/-- Embeds `strings.Join(l, ", ")` as used in `updateUsage`. -/
def joinComma : List String → String
  | [] => ""
  | [s] => s
  | s :: rest => s ++ ", " ++ joinComma rest

/-- Embeds fmt's `%q` for strings containing no characters that need escaping
(the only use quotes the raw environment value). -/
def goQuote (s : String) : String := "\"" ++ s ++ "\""

/-- `os.LookupEnv`: look a name up in the environment. -/
def lookupEnv : Env → String → Option String
  | [], _ => none
  | (k, v) :: rest, n => if k = n then some v else lookupEnv rest n

/-- An entry of `os.Environ()`: the string `"NAME=value"`. -/
def environEntry (e : String × String) : String := e.1 ++ "=" ++ e.2

/-- Embeds `strings.Split(s, "=")[0]`: everything before the first `=`. -/
def splitFirstEq (s : String) : String :=
  ⟨s.data.takeWhile fun c => c ≠ '='⟩

/-- Embeds `strings.HasPrefix(s, pre)`, compared character by character. -/
def hasPrefixGo (s pre : String) : Bool :=
  pre.data.isPrefixOf s.data

/-- Helper for `containsSub`: does `sub` occur inside the character list? -/
def containsSubAux (sub : List Char) : List Char → Bool
  | [] => sub.isEmpty
  | c :: rest => sub.isPrefixOf (c :: rest) || containsSubAux sub rest

/-- Embeds `strings.Contains(s, sub)` (used only to state theorems about
error-message contents, not by the program itself). -/
def containsSub (s sub : String) : Bool :=
  containsSubAux sub.data s.data

/-- `Prefix` from src/envflag.go (the Go field `prefix` is a Lean keyword, so
it is called `prefixStr` here). -/
structure Prefix where
  prefixStr : String
  strict : Bool
  deriving DecidableEq, Repr

/-- `Strict(strict)` option from src/envflag.go. -/
def Strict (strict : Bool) : Prefix → Prefix :=
  fun o => { o with strict := strict }

/-- `NewPrefix(prefix, opts...)` from src/envflag.go. -/
def NewPrefix (s : String) (opts : List (Prefix → Prefix)) : Prefix :=
  opts.foldl (fun p o => o p) ⟨s, false⟩

/-- `NoPrefix` from src/envflag.go. -/
def NoPrefix : Prefix := NewPrefix "" []

/-- `Prefix.envName` from src/envflag.go:
`ToUpper`, prepend `prefix ++ "_"` when the prefix string is non-empty, then
`ReplaceAll "-" "_"` on the whole string. -/
def envName (p : Prefix) (flagName : String) : String :=
  let s := goToUpper flagName
  let s := if p.prefixStr ≠ "" then p.prefixStr ++ "_" ++ s else s
  replaceDashes s

/-- A registered flag, as seen through the external `flag` package:
`name` and `usage` are the `flag.Flag` fields; the `flag.Value` interface is
modelled by the value's string representation `value` (`Value.String()`),
the setter's acceptance predicate `accepts` (`Value.Set` succeeds and stores
the given string iff `accepts` holds, and leaves the value unchanged on
failure, as the standard library values do), and `setErrMsg`, the message of
the error returned by a failing `Value.Set`. -/
structure Flag where
  name : String
  value : String
  usage : String
  accepts : String → Bool
  setErrMsg : String → String

/-- `f.Value.Set(s)` followed by reading `f.Value.String()`. -/
def setValue (f : Flag) (s : String) : Except String Flag :=
  if f.accepts s then .ok { f with value := s } else .error (f.setErrMsg s)

/-- `flag.ErrorHandling` of the external flag package. -/
inductive ErrorHandling
  | continueOnError
  | exitOnError
  | panicOnError
  deriving DecidableEq, Repr

/-- A `flag.FlagSet`: its name, registered flags in `VisitAll` order, whether
`Parse` has run, and the configured error handling. -/
structure FlagSet where
  name : String
  flags : List Flag
  parsed : Bool
  errorHandling : ErrorHandling

/-- `updateUsage` from src/envflag.go. -/
def updateUsage (f : Flag) (ps : List Prefix) : Flag :=
  let envs := ps.map fun p => envName p f.name
  { f with usage := f.usage ++ " [" ++ joinComma envs ++ "]" }

/-- The message of the value-conversion error built in `bind`:
`fmt.Errorf("invalid value %q for environment variable %s: %v", v, e, err)`. -/
def invalidValueMsg (v e reason : String) : String :=
  "invalid value " ++ goQuote v ++ " for environment variable " ++ e ++ ": " ++ reason

/-- The error returned when `bind` is called on a parsed flag set. -/
def parsedErrMsg : String := "envflag.Bind() must be called before flag.Parse()"

/-- The strict-violation error message built in `bind`. -/
def notDefinedMsg (n : String) : String :=
  "environment variable provided but corresponding flag not defined: " ++ n

/-- One iteration of the inner prefix loop of `bind`'s `VisitAll` callback:
look the mapped name up, record it as matched, try to set the flag, and on
failure record the error and restore the previous value. -/
def visitPrefix (env : Env) (st : Flag × List String × Option String) (p : Prefix) :
    Flag × List String × Option String :=
  let f := st.1
  let matched := st.2.1
  let visitErr := st.2.2
  let e := envName p f.name
  match lookupEnv env e with
  | some envValue =>
    let matched := matched ++ [e]
    let prevValue := f.value
    match setValue f envValue with
    | .ok f' => (f', matched, visitErr)
    | .error reason =>
      let visitErr := some (invalidValueMsg envValue e reason)
      let f' := match setValue f prevValue with
        | .ok g => g
        | .error _ => f
      (f', matched, visitErr)
  | none => (f, matched, visitErr)

/-- The `VisitAll` callback of `bind` for one flag: `updateUsage`, then the
prefix loop; the processed flag is appended to the accumulator. -/
def visitFlag (env : Env) (ps : List Prefix)
    (st : List Flag × List String × Option String) (f : Flag) :
    List Flag × List String × Option String :=
  let f := updateUsage f ps
  let r := ps.foldl (visitPrefix env) (f, st.2.1, st.2.2)
  (st.1 ++ [r.1], r.2.1, r.2.2)

/-- `flagSet.VisitAll(...)` over all registered flags, with the matched-name
set and the outstanding visit error threaded through. -/
def visitAll (env : Env) (ps : List Prefix) (flags : List Flag) :
    List Flag × List String × Option String :=
  flags.foldl (visitFlag env ps) ([], [], none)

/-- The strict-validation loop of `bind`: over `os.Environ()` entries (outer)
and prefixes (inner), report the first environment entry `e` with a strict
prefix such that `strings.HasPrefix(e, p.prefix)` holds for the whole
`"NAME=value"` string and the name was not matched. -/
def strictViolation (env : Env) (ps : List Prefix) (matched : List String) : Option String :=
  env.findSome? fun e => ps.findSome? fun p =>
    if p.strict && hasPrefixGo (environEntry e) p.prefixStr
        && !(matched.contains (splitFirstEq (environEntry e))) then
      some (splitFirstEq (environEntry e))
    else
      none

/-- `bind` from src/envflag.go. Returns the error (if any) and the resulting
flag set. -/
def bind (fs : FlagSet) (env : Env) (prefixes : List Prefix) : Option String × FlagSet :=
  let ps := if prefixes.isEmpty then [NoPrefix] else prefixes
  if fs.parsed then (some parsedErrMsg, fs)
  else
    let r := visitAll env ps fs.flags
    let fs' : FlagSet := { fs with flags := r.1 }
    match r.2.2 with
    | some e => (some e, fs')
    | none =>
      match strictViolation env ps r.2.1 with
      | some n => (some (notDefinedMsg n), fs')
      | none => (none, fs')

/-- The usage header printed by the default error policy. -/
def usageHeader (fs : FlagSet) : String :=
  if fs.name = "" then "Usage:\n" else "Usage of " ++ fs.name ++ ":\n"

/-- Models the external flag package's `FlagSet.PrintDefaults`: one entry per
registered flag, naming the flag and its usage text. -/
def printDefaults (fs : FlagSet) : String :=
  String.join (fs.flags.map fun f => "  -" ++ f.name ++ "\n    \t" ++ f.usage ++ "\n")

/-- The exit status used by the default `exit` hook (`os.Exit(2)`). -/
def exitStatus : Nat := 2

/-- The observable result of `BindFlagSet`: a returned error value (possibly
`none`), a panic, or text written to the flag set's output followed by the
default exit hook terminating the process with the given status. -/
inductive Outcome
  | ret (err : Option String) (fs : FlagSet)
  | panicked (err : String) (fs : FlagSet)
  | exited (out : String) (status : Nat) (fs : FlagSet)

/-- `BindFlagSet` from src/envflag.go: run `bind`, then dispatch any error on
the flag set's configured error handling. -/
def BindFlagSet (fs : FlagSet) (prefixes : List Prefix) (env : Env) : Outcome :=
  match bind fs env prefixes with
  | (some err, fs') =>
    match fs'.errorHandling with
    | .continueOnError => .ret (some err) fs'
    | .panicOnError => .panicked err fs'
    | .exitOnError =>
        .exited (err ++ "\n" ++ usageHeader fs' ++ printDefaults fs') exitStatus fs'
  | (none, fs') => .ret none fs'

/-- The effect of the inner prefix loop of `bind` on the flag alone: how one
prefix transforms one flag (the flag component of `visitPrefix`). -/
def stepFlag (env : Env) (p : Prefix) (f : Flag) : Flag :=
  match lookupEnv env (envName p f.name) with
  | some envValue =>
    match setValue f envValue with
    | .ok f' => f'
    | .error _ =>
      match setValue f f.value with
      | .ok g => g
      | .error _ => f
  | none => f

/-- How one full `bind` call transforms one registered flag: `updateUsage`
followed by the prefix loop. -/
def bindFlag (env : Env) (ps : List Prefix) (f : Flag) : Flag :=
  ps.foldl (fun g p => stepFlag env p g) (updateUsage f ps)

/-- The environment-variable names matched for one flag, in prefix order. -/
def flagMatched (env : Env) (ps : List Prefix) (f : Flag) : List String :=
  ps.filterMap fun p =>
    match lookupEnv env (envName p f.name) with
    | some _ => some (envName p f.name)
    | none => none

/-- The value-conversion error messages produced for one flag, in prefix
order: one for every matched environment value rejected by the setter. -/
def flagRejections (env : Env) (ps : List Prefix) (f : Flag) : List String :=
  ps.filterMap fun p =>
    match lookupEnv env (envName p f.name) with
    | some v =>
      if f.accepts v then none
      else some (invalidValueMsg v (envName p f.name) (f.setErrMsg v))
    | none => none

/-- All matched environment-variable names, over the flags in visit order. -/
def allMatched (env : Env) (ps : List Prefix) : List Flag → List String
  | [] => []
  | f :: rest => flagMatched env ps f ++ allMatched env ps rest

/-- All value-conversion error messages, over the flags in visit order. -/
def allRejections (env : Env) (ps : List Prefix) : List Flag → List String
  | [] => []
  | f :: rest => flagRejections env ps f ++ allRejections env ps rest

/-- Overwriting accumulation of an error slot: each message in the list
replaces whatever was there before (how `visitErr` evolves in `bind`). -/
def overwrite (ve : Option String) (l : List String) : Option String :=
  l.foldl (fun _ m => some m) ve

/-- The last element of a list, if any. -/
def lastOf : List String → Option String
  | [] => none
  | x :: rest =>
    match lastOf rest with
    | some y => some y
    | none => some x

/-- Modelled from the spec wording of claim C1, for comparison with the
source's `envName`: uppercase the flag name, replace its hyphens by
underscores, and prepend the prefix string verbatim followed by `_` iff the
prefix string is non-empty. -/
def envNameSpec (p : Prefix) (flagName : String) : String :=
  (if p.prefixStr ≠ "" then p.prefixStr ++ "_" else "") ++ replaceDashes (goToUpper flagName)

/-- The result of `Bind`, which returns nothing: the error value of a normal
return is discarded. -/
inductive VoidOutcome
  | done (fs : FlagSet)
  | panicked (err : String) (fs : FlagSet)
  | exited (out : String) (status : Nat) (fs : FlagSet)

/-- `Bind` from src/envflag.go: `_ = BindFlagSet(flag.CommandLine, prefixes...)`.
The global `flag.CommandLine` flag set is passed explicitly. -/
def Bind (commandLine : FlagSet) (prefixes : List Prefix) (env : Env) : VoidOutcome :=
  match BindFlagSet commandLine prefixes env with
  | .ret _ fs' => .done fs'
  | .panicked e fs' => .panicked e fs'
  | .exited o s fs' => .exited o s fs'

/-! ### Helper lemmas -/

theorem setValue_ok (f : Flag) (s : String) (h : f.accepts s = true) :
    setValue f s = .ok { f with value := s } := by
  simp [setValue, h]

theorem setValue_error (f : Flag) (s : String) (h : f.accepts s = false) :
    setValue f s = .error (f.setErrMsg s) := by
  simp [setValue, h]

theorem restore_self (f : Flag) :
    (match setValue f f.value with
      | .ok g => g
      | .error _ => f) = f := by
  unfold setValue
  by_cases hb : f.accepts f.value <;> simp [hb]

theorem stepFlag_cases (env : Env) (p : Prefix) (f : Flag) :
    stepFlag env p f =
      match lookupEnv env (envName p f.name) with
      | some v => if f.accepts v then { f with value := v } else f
      | none => f := by
  unfold stepFlag
  cases hl : lookupEnv env (envName p f.name) with
  | none => rfl
  | some v =>
    dsimp only
    by_cases ha : f.accepts v
    · rw [setValue_ok f v ha]
      simp [ha]
    · have ha' : f.accepts v = false := by simpa using ha
      rw [setValue_error f v ha']
      simp [ha', restore_self]

theorem stepFlag_name (env : Env) (p : Prefix) (f : Flag) :
    (stepFlag env p f).name = f.name := by
  rw [stepFlag_cases]
  cases lookupEnv env (envName p f.name) with
  | none => rfl
  | some v => by_cases h : f.accepts v <;> simp [h]

theorem stepFlag_usage (env : Env) (p : Prefix) (f : Flag) :
    (stepFlag env p f).usage = f.usage := by
  rw [stepFlag_cases]
  cases lookupEnv env (envName p f.name) with
  | none => rfl
  | some v => by_cases h : f.accepts v <;> simp [h]

theorem stepFlag_accepts (env : Env) (p : Prefix) (f : Flag) :
    (stepFlag env p f).accepts = f.accepts := by
  rw [stepFlag_cases]
  cases lookupEnv env (envName p f.name) with
  | none => rfl
  | some v => by_cases h : f.accepts v <;> simp [h]

theorem stepFlag_setErrMsg (env : Env) (p : Prefix) (f : Flag) :
    (stepFlag env p f).setErrMsg = f.setErrMsg := by
  rw [stepFlag_cases]
  cases lookupEnv env (envName p f.name) with
  | none => rfl
  | some v => by_cases h : f.accepts v <;> simp [h]

theorem foldl_stepFlag_fields (env : Env) :
    ∀ (ps : List Prefix) (g : Flag),
      (ps.foldl (fun h p => stepFlag env p h) g).name = g.name ∧
      (ps.foldl (fun h p => stepFlag env p h) g).usage = g.usage ∧
      (ps.foldl (fun h p => stepFlag env p h) g).accepts = g.accepts ∧
      (ps.foldl (fun h p => stepFlag env p h) g).setErrMsg = g.setErrMsg := by
  intro ps
  induction ps with
  | nil => intro g; exact ⟨rfl, rfl, rfl, rfl⟩
  | cons p ps ih =>
    intro g
    have h := ih (stepFlag env p g)
    simp only [List.foldl_cons]
    exact ⟨h.1.trans (stepFlag_name env p g), h.2.1.trans (stepFlag_usage env p g),
      h.2.2.1.trans (stepFlag_accepts env p g), h.2.2.2.trans (stepFlag_setErrMsg env p g)⟩

theorem bindFlag_name (env : Env) (ps : List Prefix) (f : Flag) :
    (bindFlag env ps f).name = f.name :=
  (foldl_stepFlag_fields env ps (updateUsage f ps)).1

theorem bindFlag_accepts (env : Env) (ps : List Prefix) (f : Flag) :
    (bindFlag env ps f).accepts = f.accepts :=
  (foldl_stepFlag_fields env ps (updateUsage f ps)).2.2.1

theorem bindFlag_usage (env : Env) (ps : List Prefix) (f : Flag) :
    (bindFlag env ps f).usage =
      f.usage ++ " [" ++ joinComma (ps.map fun p => envName p f.name) ++ "]" :=
  (foldl_stepFlag_fields env ps (updateUsage f ps)).2.1

theorem flagMatched_congr (env : Env) (ps : List Prefix) {f g : Flag}
    (h : f.name = g.name) : flagMatched env ps f = flagMatched env ps g := by
  unfold flagMatched
  rw [h]

theorem flagRejections_congr (env : Env) (ps : List Prefix) {f g : Flag}
    (h1 : f.name = g.name) (h2 : f.accepts = g.accepts)
    (h3 : f.setErrMsg = g.setErrMsg) :
    flagRejections env ps f = flagRejections env ps g := by
  unfold flagRejections
  rw [h1, h2, h3]

theorem overwrite_nil (ve : Option String) : overwrite ve [] = ve := rfl

theorem overwrite_cons (ve : Option String) (m : String) (l : List String) :
    overwrite ve (m :: l) = overwrite (some m) l := rfl

theorem overwrite_append (ve : Option String) (l₁ l₂ : List String) :
    overwrite ve (l₁ ++ l₂) = overwrite (overwrite ve l₁) l₂ :=
  List.foldl_append ..

theorem foldl_visitPrefix_eq (env : Env) :
    ∀ (ps : List Prefix) (f : Flag) (m : List String) (ve : Option String),
      ps.foldl (visitPrefix env) (f, m, ve) =
        (ps.foldl (fun g p => stepFlag env p g) f,
         m ++ flagMatched env ps f,
         overwrite ve (flagRejections env ps f)) := by
  intro ps
  induction ps with
  | nil => intro f m ve; simp [flagMatched, flagRejections, overwrite]
  | cons p ps ih =>
    intro f m ve
    rw [List.foldl_cons, List.foldl_cons]
    cases hl : lookupEnv env (envName p f.name) with
    | none =>
      have hv : visitPrefix env (f, m, ve) p = (f, m, ve) := by
        simp [visitPrefix, hl]
      have hs : stepFlag env p f = f := by rw [stepFlag_cases, hl]
      have hm : flagMatched env (p :: ps) f = flagMatched env ps f := by
        simp [flagMatched, List.filterMap_cons, hl]
      have hr : flagRejections env (p :: ps) f = flagRejections env ps f := by
        simp [flagRejections, List.filterMap_cons, hl]
      rw [hv, hs, ih, hm, hr]
    | some v =>
      by_cases ha : f.accepts v
      · have hv : visitPrefix env (f, m, ve) p =
            ({ f with value := v }, m ++ [envName p f.name], ve) := by
          simp [visitPrefix, hl, setValue_ok f v ha]
        have hs : stepFlag env p f = { f with value := v } := by
          rw [stepFlag_cases, hl]
          simp [ha]
        have hm : flagMatched env (p :: ps) f =
            envName p f.name :: flagMatched env ps f := by
          simp [flagMatched, List.filterMap_cons, hl]
        have hr : flagRejections env (p :: ps) f = flagRejections env ps f := by
          simp [flagRejections, List.filterMap_cons, hl, ha]
        have hm' : flagMatched env ps { f with value := v } = flagMatched env ps f :=
          flagMatched_congr env ps rfl
        have hr' : flagRejections env ps { f with value := v } = flagRejections env ps f :=
          flagRejections_congr env ps rfl rfl rfl
        rw [hv, hs, ih, hm, hr, hm', hr', List.append_assoc, List.singleton_append]
      · have ha' : f.accepts v = false := by simpa using ha
        have hv : visitPrefix env (f, m, ve) p =
            (f, m ++ [envName p f.name],
             some (invalidValueMsg v (envName p f.name) (f.setErrMsg v))) := by
          simp only [visitPrefix]
          rw [hl]
          dsimp only
          rw [setValue_error f v ha']
          dsimp only
          rw [restore_self]
        have hs : stepFlag env p f = f := by
          rw [stepFlag_cases, hl]
          simp [ha']
        have hm : flagMatched env (p :: ps) f =
            envName p f.name :: flagMatched env ps f := by
          simp [flagMatched, List.filterMap_cons, hl]
        have hr : flagRejections env (p :: ps) f =
            invalidValueMsg v (envName p f.name) (f.setErrMsg v) :: flagRejections env ps f := by
          simp [flagRejections, List.filterMap_cons, hl, ha']
        rw [hv, hs, ih, hm, hr, overwrite_cons, List.append_assoc, List.singleton_append]

theorem visitFlag_eq (env : Env) (ps : List Prefix) (acc : List Flag)
    (m : List String) (ve : Option String) (f : Flag) :
    visitFlag env ps (acc, m, ve) f =
      (acc ++ [bindFlag env ps f], m ++ flagMatched env ps f,
       overwrite ve (flagRejections env ps f)) := by
  unfold visitFlag
  dsimp only
  rw [foldl_visitPrefix_eq]
  have hm : flagMatched env ps (updateUsage f ps) = flagMatched env ps f :=
    flagMatched_congr env ps rfl
  have hr : flagRejections env ps (updateUsage f ps) = flagRejections env ps f :=
    flagRejections_congr env ps rfl rfl rfl
  rw [hm, hr]
  rfl

theorem foldl_visitFlag_eq (env : Env) (ps : List Prefix) :
    ∀ (flags : List Flag) (acc : List Flag) (m : List String) (ve : Option String),
      flags.foldl (visitFlag env ps) (acc, m, ve) =
        (acc ++ flags.map (bindFlag env ps),
         m ++ allMatched env ps flags,
         overwrite ve (allRejections env ps flags)) := by
  intro flags
  induction flags with
  | nil => intro acc m ve; simp [allMatched, allRejections, overwrite]
  | cons f rest ih =>
    intro acc m ve
    rw [List.foldl_cons, visitFlag_eq, ih]
    simp only [allMatched, allRejections, List.map_cons]
    rw [overwrite_append, List.append_assoc, List.append_assoc, List.singleton_append]

theorem visitAll_eq (env : Env) (ps : List Prefix) (flags : List Flag) :
    visitAll env ps flags =
      (flags.map (bindFlag env ps), allMatched env ps flags,
       overwrite none (allRejections env ps flags)) := by
  unfold visitAll
  rw [foldl_visitFlag_eq]
  simp

theorem bind_not_parsed (fs : FlagSet) (env : Env) (ps : List Prefix)
    (h1 : fs.parsed = false) (h2 : ps ≠ []) :
    bind fs env ps =
      ((match overwrite none (allRejections env ps fs.flags) with
        | some e => some e
        | none =>
          match strictViolation env ps (allMatched env ps fs.flags) with
          | some n => some (notDefinedMsg n)
          | none => none),
       { fs with flags := fs.flags.map (bindFlag env ps) }) := by
  have hps : (if ps.isEmpty then [NoPrefix] else ps) = ps := by
    cases ps with
    | nil => exact absurd rfl h2
    | cons a l => rfl
  unfold bind
  rw [hps, h1]
  dsimp only
  rw [visitAll_eq]
  dsimp only
  cases overwrite none (allRejections env ps fs.flags) with
  | some e => rfl
  | none =>
    dsimp only
    cases strictViolation env ps (allMatched env ps fs.flags) with
    | some n => rfl
    | none => rfl

theorem bind_flags_not_parsed (fs : FlagSet) (env : Env) (ps : List Prefix)
    (h1 : fs.parsed = false) (h2 : ps ≠ []) :
    (bind fs env ps).2 = { fs with flags := fs.flags.map (bindFlag env ps) } := by
  rw [bind_not_parsed fs env ps h1 h2]

theorem bind_errorHandling (fs : FlagSet) (env : Env) (ps : List Prefix) :
    (bind fs env ps).2.errorHandling = fs.errorHandling := by
  unfold bind
  by_cases h : fs.parsed
  · simp [h]
  · simp only [h]
    cases (visitAll env (if ps.isEmpty then [NoPrefix] else ps) fs.flags).2.2 with
    | some e => simp
    | none =>
      cases strictViolation env (if ps.isEmpty then [NoPrefix] else ps)
          (visitAll env (if ps.isEmpty then [NoPrefix] else ps) fs.flags).2.1 with
      | some n => simp
      | none => simp

theorem overwrite_eq_lastOf :
    ∀ (l : List String) (ve : Option String),
      overwrite ve l =
        match lastOf l with
        | some m => some m
        | none => ve := by
  intro l
  induction l with
  | nil => intro ve; rfl
  | cons x t ih =>
    intro ve
    rw [overwrite_cons, ih]
    cases hl : lastOf t with
    | some y => simp [lastOf, hl]
    | none => simp [lastOf, hl]

theorem mem_flagMatched (env : Env) (ps : List Prefix) (f : Flag) (p : Prefix) (v : String)
    (hp : p ∈ ps) (hl : lookupEnv env (envName p f.name) = some v) :
    envName p f.name ∈ flagMatched env ps f := by
  unfold flagMatched
  exact List.mem_filterMap.mpr ⟨p, hp, by rw [hl]⟩

theorem mem_allMatched (env : Env) (ps : List Prefix) :
    ∀ (flags : List Flag) (f : Flag) (p : Prefix) (v : String),
      f ∈ flags → p ∈ ps → lookupEnv env (envName p f.name) = some v →
      envName p f.name ∈ allMatched env ps flags := by
  intro flags
  induction flags with
  | nil => intro f p v hf _ _; cases hf
  | cons g rest ih =>
    intro f p v hf hp hl
    unfold allMatched
    cases hf with
    | head => exact List.mem_append_left _ (mem_flagMatched env ps g p v hp hl)
    | tail _ hf => exact List.mem_append_right _ (ih f p v hf hp hl)

theorem strictViolation_spec (env : Env) (ps : List Prefix) (matched : List String)
    (n : String) (h : strictViolation env ps matched = some n) :
    ∃ e ∈ env, ∃ p ∈ ps, p.strict = true ∧
      hasPrefixGo (environEntry e) p.prefixStr = true ∧
      matched.contains (splitFirstEq (environEntry e)) = false ∧
      n = splitFirstEq (environEntry e) := by
  obtain ⟨e, he, h2⟩ := List.exists_of_findSome?_eq_some h
  obtain ⟨p, hp, h3⟩ := List.exists_of_findSome?_eq_some h2
  by_cases hc : (p.strict && hasPrefixGo (environEntry e) p.prefixStr
      && !(matched.contains (splitFirstEq (environEntry e)))) = true
  · refine ⟨e, he, p, hp, ?_⟩
    rw [if_pos hc] at h3
    have hn : n = splitFirstEq (environEntry e) := (Option.some.injEq _ _ ▸ h3).symm
    have hc' := hc
    simp only [Bool.and_eq_true, Bool.not_eq_true'] at hc'
    exact ⟨hc'.1.1, hc'.1.2, hc'.2, hn⟩
  · rw [if_neg hc] at h3
    cases h3

theorem replaceDashes_append (a b : String) :
    replaceDashes (a ++ b) = replaceDashes a ++ replaceDashes b := by
  cases a with | _ da =>
  cases b with | _ db =>
  show replaceDashes ⟨da ++ db⟩ = _
  simp [replaceDashes, String.ext_iff]

theorem foldl_stepFlag_no_match (env : Env) :
    ∀ (r : List Prefix) (g : Flag),
      (∀ q ∈ r, lookupEnv env (envName q g.name) = none) →
      r.foldl (fun h p => stepFlag env p h) g = g := by
  intro r
  induction r with
  | nil => intro g _; rfl
  | cons q r ih =>
    intro g hr
    rw [List.foldl_cons]
    have hs : stepFlag env q g = g := by
      rw [stepFlag_cases, hr q (List.mem_cons_self q r)]
    rw [hs]
    exact ih g fun q' hq' => hr q' (List.mem_cons_of_mem q hq')

/-! ### Claim theorems -/

/-- Claim C1, counterexample: the name-mapping function does not use the
prefix string verbatim. For the prefix string `"MY-APP"` and flag name
`"port"`, the code returns `"MY_APP_PORT"` (the hyphen inside the prefix is
replaced too, because `ReplaceAll` runs after the prefix is prepended),
while the claimed formula yields `"MY-APP_PORT"`. -/
theorem envName_claim1_counterexample :
    envName ⟨"MY-APP", false⟩ "port" = "MY_APP_PORT" ∧
    envNameSpec ⟨"MY-APP", false⟩ "port" = "MY-APP_PORT" ∧
    envName ⟨"MY-APP", false⟩ "port" ≠ envNameSpec ⟨"MY-APP", false⟩ "port" := by
  exact ⟨by decide, by decide, by decide⟩

/-- Claim C1, amended: for every flag name `f` and prefix with prefix string
`s`, the mapped name is uppercase(`f`) with every hyphen replaced by
underscore, prepended by `s` followed by a single underscore iff `s` is
non-empty, where `s` is not case-changed but its hyphens are also replaced
by underscores (the replacement applies to the concatenated string). -/
theorem envName_claim1_amended (p : Prefix) (f : String) :
    envName p f =
      if p.prefixStr = "" then replaceDashes (goToUpper f)
      else replaceDashes p.prefixStr ++ "_" ++ replaceDashes (goToUpper f) := by
  unfold envName
  by_cases h : p.prefixStr = ""
  · simp [h]
  · simp only [h, ne_eq, not_false_eq_true, if_true, if_false]
    rw [replaceDashes_append, replaceDashes_append]
    rfl

/-- Claim C4: the strict-prefix validation applies `strings.HasPrefix` to the
whole `"NAME=value"` environ entry, not to the variable name. With the
environment variable `MY=APP_X` (name `MY`, value `APP_X`), a strict prefix
`"MY=A"`, and no flags defined, `bind` reports a strict-violation error for
`MY` even though the name `MY` does not begin with the prefix string
`"MY=A"` — contradicting the claim, which predicts no error here. -/
theorem strict_claim4_code_bug :
    (bind ⟨"test", [], false, .continueOnError⟩ [("MY", "APP_X")] [⟨"MY=A", true⟩]).1
      = some "environment variable provided but corresponding flag not defined: MY" ∧
    hasPrefixGo "MY" "MY=A" = false := by
  exact ⟨by decide, by decide⟩

/-- Claim C5: binding with zero prefixes is identical — same returned error
and same resulting flag set (values and usage texts) — to binding with the
single default Prefix whose prefix string is empty and which is non-strict,
both for the core `bind` and for the `BindFlagSet` adapter. -/
theorem bind_claim5_default_prefix (fs : FlagSet) (env : Env) :
    bind fs env [] = bind fs env [⟨"", false⟩] ∧
    BindFlagSet fs [] env = BindFlagSet fs [⟨"", false⟩] env :=
  ⟨rfl, rfl⟩

/-- Claim C2: when the environment sets variables for the same flag under
more than one supplied prefix (`q` before `p`, with `p` the last prefix
whose mapped variable is set), after `bind` the flag holds the environment
value looked up under the last such prefix: the flags of the result are the
per-flag processing of the original flags, and the flag's processed value is
`v`, the value of `p`'s variable. -/
theorem bind_claim2_last_prefix_wins (fs : FlagSet) (env : Env)
    (l r : List Prefix) (p q : Prefix) (f : Flag) (v w : String)
    (hparsed : fs.parsed = false)
    (_hflag : f ∈ fs.flags)
    (_hq : q ∈ l) (_hqv : lookupEnv env (envName q f.name) = some w)
    (hpv : lookupEnv env (envName p f.name) = some v)
    (hacc : f.accepts v = true)
    (hrest : ∀ p2 ∈ r, lookupEnv env (envName p2 f.name) = none) :
    (bind fs env (l ++ p :: r)).2.flags = fs.flags.map (bindFlag env (l ++ p :: r)) ∧
    (bindFlag env (l ++ p :: r) f).value = v := by
  have hne : (l ++ p :: r) ≠ [] := by simp
  refine ⟨by rw [bind_flags_not_parsed fs env (l ++ p :: r) hparsed hne], ?_⟩
  unfold bindFlag
  rw [List.foldl_append, List.foldl_cons]
  have hgname : (l.foldl (fun h p' => stepFlag env p' h) (updateUsage f (l ++ p :: r))).name
      = f.name :=
    (foldl_stepFlag_fields env l (updateUsage f (l ++ p :: r))).1.trans rfl
  have hgacc : (l.foldl (fun h p' => stepFlag env p' h) (updateUsage f (l ++ p :: r))).accepts
      = f.accepts :=
    (foldl_stepFlag_fields env l (updateUsage f (l ++ p :: r))).2.2.1.trans rfl
  have hstep : stepFlag env p (l.foldl (fun h p' => stepFlag env p' h)
      (updateUsage f (l ++ p :: r))) =
      { l.foldl (fun h p' => stepFlag env p' h) (updateUsage f (l ++ p :: r)) with
        value := v } := by
    rw [stepFlag_cases, hgname, hpv]
    dsimp only
    rw [hgacc]
    simp [hacc]
    exact hgname.symm
  rw [hstep]
  have hnm : ∀ q2 ∈ r, lookupEnv env (envName q2
      ({ l.foldl (fun h p' => stepFlag env p' h) (updateUsage f (l ++ p :: r)) with
         value := v }).name) = none := by
    intro q2 hq2
    have hn : ({ l.foldl (fun h p' => stepFlag env p' h) (updateUsage f (l ++ p :: r)) with
        value := v }).name = f.name := hgname
    rw [hn]
    exact hrest q2 hq2
  rw [foldl_stepFlag_no_match env r _ hnm]

/-- Claim C2, witness: flag `my-var` accepting all values, environment with
`MY_VAR=one` and `MYAPP_MY_VAR=two`, prefixes `["", "MYAPP"]`: after `bind`
the flag's value is `two`, the value under the last prefix. -/
theorem bind_claim2_witness :
    (bind ⟨"test", [⟨"my-var", "default value", "This is a flag.",
        fun _ => true, fun _ => "e"⟩], false, .continueOnError⟩
      [("MY_VAR", "one"), ("MYAPP_MY_VAR", "two")]
      ([⟨"", false⟩] ++ ⟨"MYAPP", false⟩ :: [])).2.flags =
      [⟨"my-var", "default value", "This is a flag.",
        fun _ => true, fun _ => "e"⟩].map
        (bindFlag [("MY_VAR", "one"), ("MYAPP_MY_VAR", "two")]
          ([⟨"", false⟩] ++ ⟨"MYAPP", false⟩ :: [])) ∧
    (bindFlag [("MY_VAR", "one"), ("MYAPP_MY_VAR", "two")]
      ([⟨"", false⟩] ++ ⟨"MYAPP", false⟩ :: [])
      ⟨"my-var", "default value", "This is a flag.",
        fun _ => true, fun _ => "e"⟩).value = "two" :=
  bind_claim2_last_prefix_wins
    ⟨"test", [⟨"my-var", "default value", "This is a flag.",
      fun _ => true, fun _ => "e"⟩], false, .continueOnError⟩
    [("MY_VAR", "one"), ("MYAPP_MY_VAR", "two")]
    [⟨"", false⟩] [] ⟨"MYAPP", false⟩ ⟨"", false⟩
    ⟨"my-var", "default value", "This is a flag.", fun _ => true, fun _ => "e"⟩
    "two" "one" rfl (List.Mem.head _) (List.Mem.head _)
    (by decide) (by decide) rfl (by intro p2 hp2; cases hp2)

/-- Claim C3, counterexample: with two flags `alpha` and `beta` whose setters
reject everything, and environment `ALPHA=xx`, `BETA=yy`, the value for
`alpha` is rejected (premise of the claim), yet the error ultimately
returned by `bind` is the one for `beta` — it contains neither the rejected
value `xx` nor the variable name `ALPHA`, so the claim's universally
quantified error-content conclusion is false for `alpha`. -/
theorem bind_claim3_counterexample :
    (bind ⟨"test",
        [⟨"alpha", "a0", "ua", fun _ => false, fun _ => "parse error"⟩,
         ⟨"beta", "b0", "ub", fun _ => false, fun _ => "parse error"⟩],
        false, .continueOnError⟩
      [("ALPHA", "xx"), ("BETA", "yy")] [⟨"", false⟩]).1
      = some "invalid value \"yy\" for environment variable BETA: parse error" ∧
    lookupEnv [("ALPHA", "xx"), ("BETA", "yy")]
      (envName ⟨"", false⟩ "alpha") = some "xx" ∧
    (⟨"alpha", "a0", "ua", fun _ => false, fun _ => "parse error"⟩ : Flag).accepts "xx"
      = false ∧
    containsSub "invalid value \"yy\" for environment variable BETA: parse error"
      "ALPHA" = false ∧
    containsSub "invalid value \"yy\" for environment variable BETA: parse error"
      "xx" = false := by
  exact ⟨by decide, by decide, by decide, by decide, by decide⟩

/-- Claim C3, amended: a failed set leaves the flag exactly as it was
(the previous value is restored), processing continues over all remaining
prefixes and flags (every flag is still processed, and the resulting flag
list is the full per-flag map), and `bind` ultimately returns the
invalid-value error of the *last* rejected (flag, prefix) pair in processing
order — errors of earlier rejections are overwritten and need not appear in
the returned error. -/
theorem bind_claim3_amended (fs : FlagSet) (env : Env) (ps : List Prefix) (m : String)
    (h1 : fs.parsed = false) (h2 : ps ≠ [])
    (h3 : lastOf (allRejections env ps fs.flags) = some m) :
    (bind fs env ps).1 = some m ∧
    (bind fs env ps).2.flags = fs.flags.map (bindFlag env ps) ∧
    (∀ (p : Prefix) (f : Flag) (v : String),
      lookupEnv env (envName p f.name) = some v → f.accepts v = false →
      stepFlag env p f = f) := by
  refine ⟨?_, by rw [bind_flags_not_parsed fs env ps h1 h2], ?_⟩
  · rw [bind_not_parsed fs env ps h1 h2]
    dsimp only
    rw [overwrite_eq_lastOf, h3]
  · intro p f v hl ha
    rw [stepFlag_cases, hl]
    simp [ha]

/-- Claim C3, witness: the amended theorem applied to the two-rejections
input; the returned error is the (last) invalid-value message for `BETA`. -/
theorem bind_claim3_witness :
    (bind ⟨"test",
        [⟨"alpha", "a0", "ua", fun _ => false, fun _ => "parse error"⟩,
         ⟨"beta", "b0", "ub", fun _ => false, fun _ => "parse error"⟩],
        false, .continueOnError⟩
      [("ALPHA", "xx"), ("BETA", "yy")] [⟨"", false⟩]).1
      = some "invalid value \"yy\" for environment variable BETA: parse error" :=
  (bind_claim3_amended
    ⟨"test",
      [⟨"alpha", "a0", "ua", fun _ => false, fun _ => "parse error"⟩,
       ⟨"beta", "b0", "ub", fun _ => false, fun _ => "parse error"⟩],
      false, .continueOnError⟩
    [("ALPHA", "xx"), ("BETA", "yy")] [⟨"", false⟩]
    "invalid value \"yy\" for environment variable BETA: parse error"
    rfl (by decide) (by decide)).1

/-- Claim C6: after a `bind` that passes the parsed-state check, every
flag's usage text equals its original usage text followed by a space and a
bracketed comma-separated list of the environment variable names computed
for it under every supplied prefix, in supplied order — independent of the
environment contents (the hypothesis mentions no environment variable). -/
theorem bind_claim6_usage (fs : FlagSet) (env : Env) (ps : List Prefix)
    (h1 : fs.parsed = false) (h2 : ps ≠ []) :
    (bind fs env ps).2.flags.map (fun f => f.usage) =
      fs.flags.map (fun f =>
        f.usage ++ " [" ++ joinComma (ps.map fun p => envName p f.name) ++ "]") := by
  rw [bind_flags_not_parsed fs env ps h1 h2]
  show (fs.flags.map (bindFlag env ps)).map (fun f => f.usage) = _
  rw [List.map_map]
  apply List.map_congr_left
  intro f _
  exact bindFlag_usage env ps f

/-- Claim C6, witness: one flag `my-var`, empty environment, prefixes
`["", "MYAPP"]`: the usage text after `bind` ends with `[MY_VAR,
MYAPP_MY_VAR]` even though neither variable is set. -/
theorem bind_claim6_witness :
    (bind ⟨"test", [⟨"my-var", "default value", "This is a flag.",
        fun _ => true, fun _ => "e"⟩], false, .continueOnError⟩
      [] [⟨"", false⟩, ⟨"MYAPP", true⟩]).2.flags.map (fun f => f.usage) =
      ["This is a flag. [MY_VAR, MYAPP_MY_VAR]"] := by
  rw [bind_claim6_usage
    ⟨"test", [⟨"my-var", "default value", "This is a flag.",
      fun _ => true, fun _ => "e"⟩], false, .continueOnError⟩
    [] [⟨"", false⟩, ⟨"MYAPP", true⟩] rfl (by decide)]
  decide

/-- Claim C7, counterexample: `bind` invoked on an already-parsed flag set
whose error handling is the default (`ExitOnError`) does not return the
configuration-order error to the caller: `BindFlagSet` routes it through the
print-and-exit policy (writing the error, the usage header and the defaults
listing, then invoking the exit hook with status 2), exactly as
`TestBindErrorHandling` in src/envflag_test.go expects. -/
theorem bindFlagSet_claim7_counterexample :
    BindFlagSet ⟨"test", [], true, .exitOnError⟩ [] [] =
      .exited "envflag.Bind() must be called before flag.Parse()\nUsage of test:\n" 2
        ⟨"test", [], true, .exitOnError⟩ ∧
    BindFlagSet ⟨"test", [], true, .exitOnError⟩ [] [] ≠
      .ret (some parsedErrMsg) ⟨"test", [], true, .exitOnError⟩ := by
  constructor
  · rfl
  · intro hcontra
    exact Outcome.noConfusion hcontra

/-- Claim C7, amended: when `bind` is invoked on a flag set that has already
parsed its arguments, it fails immediately with the configuration-order
error and mutates nothing (the flag set is returned unchanged); the error is
then dispatched through the flag set's configured error-handling policy like
any other bind error — returned under the continue policy, panicked under
the panic policy, and printed-then-exited under the default policy. -/
theorem bindFlagSet_claim7_amended (fs : FlagSet) (ps : List Prefix) (env : Env)
    (h : fs.parsed = true) :
    bind fs env ps = (some parsedErrMsg, fs) ∧
    (fs.errorHandling = .continueOnError →
      BindFlagSet fs ps env = .ret (some parsedErrMsg) fs) ∧
    (fs.errorHandling = .panicOnError →
      BindFlagSet fs ps env = .panicked parsedErrMsg fs) ∧
    (fs.errorHandling = .exitOnError →
      BindFlagSet fs ps env = .exited
        (parsedErrMsg ++ "\n" ++ usageHeader fs ++ printDefaults fs) exitStatus fs) := by
  have hb : bind fs env ps = (some parsedErrMsg, fs) := by
    unfold bind
    simp [h]
  refine ⟨hb, ?_, ?_, ?_⟩ <;> intro he <;> unfold BindFlagSet <;> rw [hb] <;> simp [he]

/-- Claim C7, witness: the amended theorem applied to a parsed flag set with
the continue policy — there the error is returned to the caller. -/
theorem bindFlagSet_claim7_witness :
    BindFlagSet ⟨"t", [], true, .continueOnError⟩ [] [] =
      .ret (some parsedErrMsg) ⟨"t", [], true, .continueOnError⟩ :=
  (bindFlagSet_claim7_amended ⟨"t", [], true, .continueOnError⟩ [] [] rfl).2.1 rfl

/-- Claim C8: the error-handling adapter dispatches exactly on the flag
set's configured policy. On success it returns no error (and never exits);
on a bind error it returns the error under the continue policy, panics with
it under the panic policy, and under the default policy writes the error,
the usage header (flag set name if non-empty, generic otherwise — see
`usageHeader`), and the per-flag defaults listing, then invokes the exit
hook whose default status is 2. -/
theorem bindFlagSet_claim8_dispatch (fs : FlagSet) (ps : List Prefix) (env : Env) :
    ((bind fs env ps).1 = none → BindFlagSet fs ps env = .ret none (bind fs env ps).2) ∧
    (∀ e, (bind fs env ps).1 = some e →
      (fs.errorHandling = .continueOnError →
        BindFlagSet fs ps env = .ret (some e) (bind fs env ps).2) ∧
      (fs.errorHandling = .panicOnError →
        BindFlagSet fs ps env = .panicked e (bind fs env ps).2) ∧
      (fs.errorHandling = .exitOnError →
        BindFlagSet fs ps env = .exited
          (e ++ "\n" ++ usageHeader (bind fs env ps).2 ++ printDefaults (bind fs env ps).2)
          exitStatus (bind fs env ps).2)) := by
  have heh := bind_errorHandling fs env ps
  unfold BindFlagSet
  cases hb : bind fs env ps with
  | mk err fs' =>
    rw [hb] at heh
    dsimp only at heh ⊢
    cases err with
    | none =>
      exact ⟨fun _ => rfl, fun e he => (nomatch he)⟩
    | some e0 =>
      refine ⟨(fun hn => (nomatch hn)), (fun e he => ?_)⟩
      have he0 : e0 = e := by
        injection he
      subst he0
      refine ⟨?_, ?_, ?_⟩ <;> intro hpol <;> dsimp only <;> rw [heh.trans hpol]

/-- Claim C8, witness: the dispatch theorem applied to a flag set with the
continue policy and an int-like flag rejecting `abc`: `BindFlagSet` returns
the invalid-value error with no output and no exit. -/
theorem bindFlagSet_claim8_witness :
    BindFlagSet ⟨"t", [⟨"int-var", "20", "an int flag.",
        fun _ => false, fun _ => "parse error"⟩], false, .continueOnError⟩
      [⟨"", false⟩] [("INT_VAR", "abc")] =
      .ret (some "invalid value \"abc\" for environment variable INT_VAR: parse error")
        (bind ⟨"t", [⟨"int-var", "20", "an int flag.",
          fun _ => false, fun _ => "parse error"⟩], false, .continueOnError⟩
          [("INT_VAR", "abc")] [⟨"", false⟩]).2 :=
  ((bindFlagSet_claim8_dispatch
    ⟨"t", [⟨"int-var", "20", "an int flag.",
      fun _ => false, fun _ => "parse error"⟩], false, .continueOnError⟩
    [⟨"", false⟩] [("INT_VAR", "abc")]).2
    "invalid value \"abc\" for environment variable INT_VAR: parse error"
    (by decide)).1 rfl

/-- Claim C9: the matched-name set is shared across all supplied prefixes —
recorded for a name as soon as the name is present in the environment and is
the mapped name of some flag under *any* supplied prefix, strict or not. So
when `bind` reports the strict-violation error for a name `n`, `n` is the
present mapped name of no (prefix, flag) pair at all: for every supplied
prefix and every registered flag whose mapped name is `n`, the environment
lookup of `n` is empty. -/
theorem bind_claim9_matched_shared (fs : FlagSet) (env : Env) (ps : List Prefix)
    (n : String)
    (h1 : fs.parsed = false) (h2 : ps ≠ [])
    (h3 : allRejections env ps fs.flags = [])
    (h4 : strictViolation env ps (allMatched env ps fs.flags) = some n) :
    (bind fs env ps).1 = some (notDefinedMsg n) ∧
    ∀ p ∈ ps, ∀ f ∈ fs.flags, envName p f.name = n → lookupEnv env n = none := by
  constructor
  · rw [bind_not_parsed fs env ps h1 h2]
    dsimp only
    rw [h3]
    show (match strictViolation env ps (allMatched env ps fs.flags) with
      | some n => some (notDefinedMsg n)
      | none => none) = _
    rw [h4]
  · intro p hp f hf hn
    cases hv : lookupEnv env n with
    | none => rfl
    | some v =>
      exfalso
      have hmem : envName p f.name ∈ allMatched env ps fs.flags :=
        mem_allMatched env ps fs.flags f p v hf hp (by rw [hn]; exact hv)
      rw [hn] at hmem
      obtain ⟨e, _, p', _, _, _, hcont, hne⟩ := strictViolation_spec env ps _ n h4
      rw [← hne] at hcont
      have hct : (allMatched env ps fs.flags).contains n = true := by
        simpa using hmem
      rw [hct] at hcont
      cases hcont

/-- Claim C9, witness: flag `port` under strict prefix `MYAPP`, environment
`MYAPP_BAD=1`: `bind` reports the strict error for `MYAPP_BAD`, and the
conclusion instantiates to: no supplied prefix maps `port` to `MYAPP_BAD`
with that name present. -/
theorem bind_claim9_witness :
    (bind ⟨"test", [⟨"port", "8080", "the port to listen on",
        fun _ => true, fun _ => "e"⟩], false, .continueOnError⟩
      [("MYAPP_BAD", "1")] [⟨"MYAPP", true⟩]).1 =
      some (notDefinedMsg "MYAPP_BAD") :=
  (bind_claim9_matched_shared
    ⟨"test", [⟨"port", "8080", "the port to listen on",
      fun _ => true, fun _ => "e"⟩], false, .continueOnError⟩
    [("MYAPP_BAD", "1")] [⟨"MYAPP", true⟩] "MYAPP_BAD"
    rfl (by decide) (by decide) (by decide)).1

/-- Claim C10: `Bind` unconditionally discards the error value returned by
`BindFlagSet`: whenever `BindFlagSet` returns normally — with or without an
error — `Bind` produces a `done` result that carries no error value, so
under the continue-on-error policy a caller of `Bind` cannot observe a
binding failure. -/
theorem bind_claim10_discards_error (fs : FlagSet) (ps : List Prefix) (env : Env)
    (e : Option String) (fs' : FlagSet)
    (h : BindFlagSet fs ps env = .ret e fs') :
    Bind fs ps env = .done fs' := by
  unfold Bind
  rw [h]

/-- Claim C10, witness: with the continue policy and a rejected environment
value, `BindFlagSet` returns an invalid-value error, yet `Bind` yields a
plain `done` result discarding it. -/
theorem bind_claim10_witness :
    Bind ⟨"t", [⟨"int-var", "20", "an int flag.",
        fun _ => false, fun _ => "bad"⟩], false, .continueOnError⟩
      [⟨"", false⟩] [("INT_VAR", "abc")] =
      .done (bind ⟨"t", [⟨"int-var", "20", "an int flag.",
        fun _ => false, fun _ => "bad"⟩], false, .continueOnError⟩
        [("INT_VAR", "abc")] [⟨"", false⟩]).2 :=
  bind_claim10_discards_error
    ⟨"t", [⟨"int-var", "20", "an int flag.",
      fun _ => false, fun _ => "bad"⟩], false, .continueOnError⟩
    [⟨"", false⟩] [("INT_VAR", "abc")]
    (some "invalid value \"abc\" for environment variable INT_VAR: bad")
    (bind ⟨"t", [⟨"int-var", "20", "an int flag.",
      fun _ => false, fun _ => "bad"⟩], false, .continueOnError⟩
      [("INT_VAR", "abc")] [⟨"", false⟩]).2
    rfl

end Envflag
